import Mathlib

/-!
Verification of the sublime-scp transfer core (`core/scpfolder.py` and
`commands.py`) against its natural-language specification.

Python strings are modelled as Lean `String`s; Python's substring test
`needle in hay` is modelled character-exactly by `listContains` /
`pyIn`, and `str.startswith` by a character-level list prefix test.
Raised exceptions are modelled as `Option`/`none` results or explicit
`ExcKind` values threaded through the control-flow models; `sys.platform`
is fixed to a non-Windows platform (no lower-casing), matching the
POSIX branch of the source.
-/

/-! ## String machinery: Python `in`, `startswith`, and path segments -/

/-- Model of Python's substring test `needle in hay` on character lists:
true iff `needle` occurs contiguously inside `hay`. -/
def listContains (needle : List Char) : List Char → Bool
  | [] => needle.isEmpty
  | c :: t => needle.isPrefixOf (c :: t) || listContains needle t

/-- Python `needle in hay` for strings. -/
def pyIn (needle hay : String) : Bool :=
  listContains needle.data hay.data

/-- Split a character list on a separator character; mirrors Python's
`str.split(sep)` (adjacent separators produce empty pieces). -/
def splitChar (sep : Char) : List Char → List (List Char)
  | [] => [[]]
  | c :: t =>
    if c = sep then [] :: splitChar sep t
    else
      match splitChar sep t with
      | [] => [[c]]
      | p :: ps => (c :: p) :: ps

/-- `seg` occurs as a whole `/`-delimited segment of the path string `s`. -/
def hasSegment (seg s : String) : Prop :=
  seg.data ∈ splitChar '/' s.data

instance (seg s : String) : Decidable (hasSegment seg s) := by
  unfold hasSegment
  infer_instance

/-- Python `str.startswith`: `root` is a character-level prefix of `p`. -/
def startswith (p root : String) : Bool :=
  root.data.isPrefixOf p.data

/-! ## core/scpfolder.py: sessions, registry, path mapping -/

/-- A live SCP session (`SCPFolder` instance). `id` stands for Python
object identity; `cancelled` is the transport cancellation flag owned by
the underlying `SCPClient`. -/
structure Session where
  root : String
  id : Nat
  cancelled : Bool
  deriving DecidableEq

/-- Loop body of `scpfolder.connection`: return the first registered
client whose `root` is a string prefix of the query path. -/
def connLoop (p : String) : List Session → Option Session
  | [] => none
  | c :: rest => if startswith p c.root then some c else connLoop p rest

/-- `scpfolder.connection(path)`: first session whose root prefixes
`path`; `none` models raising `ScpNotConnectedError` (also when `path`
is empty/falsy). Non-Windows branch: no lower-casing. -/
def connection (conns : List Session) (path : String) : Option Session :=
  if path = "" then none else connLoop path conns

/-- `scpfolder.is_connected(path)`: same scan, returning a plain Bool. -/
def is_connected (conns : List Session) (path : String) : Bool :=
  if path = "" then false else (connLoop path conns).isSome

/-- The module-global `connections` list plus a fresh-identity counter
used to model construction of new `SCPFolder` objects. -/
structure RegState where
  conns : List Session
  nextId : Nat
  deriving DecidableEq

/-- `scpfolder.connect(path)`: return the existing session if one
matches, otherwise construct an `SCPFolder` and append it. `fsRoot`
models `root_dir` together with reading the `.scp` file: `none` means
construction raised (no mapped folder / bad config), which `connect`
turns into `False` (here `none`) without touching the registry. -/
def connect (fsRoot : String → Option String) (st : RegState) (p : String) :
    Option Session × RegState :=
  match connection st.conns p with
  | some c => (some c, st)
  | none =>
    match fsRoot p with
    | none => (none, st)
    | some r =>
      (some { root := r, id := st.nextId, cancelled := false },
       { conns := st.conns ++ [{ root := r, id := st.nextId, cancelled := false }],
         nextId := st.nextId + 1 })

/-- The root↔remote mapping carried by an `SCPFolder`. -/
structure Mapping where
  root : String
  remote_path : String
  deriving DecidableEq

/-- Length of the longest common prefix of two segment lists
(`os.path.commonprefix` on lists). -/
def commonPrefixLen : List (List Char) → List (List Char) → Nat
  | a :: as, b :: bs => if a = b then commonPrefixLen as bs + 1 else 0
  | _, _ => 0

/-- Join segment lists with `/` (`sep.join(rel_list)` in `posixpath`). -/
def joinSlash : List (List Char) → List Char
  | [] => []
  | [x] => x
  | x :: xs => x ++ '/' :: joinSlash xs

/-- POSIX `os.path.relpath(path, start)` for already-absolute,
already-normalized inputs: split both on `/`, drop empty segments, walk
up with `..` past the uncommon part of `start`, then down into `path`. -/
def relpath (path start : String) : String :=
  let sl := (splitChar '/' start.data).filter (fun l => l ≠ [])
  let pl := (splitChar '/' path.data).filter (fun l => l ≠ [])
  let i := commonPrefixLen sl pl
  let rel := List.replicate (sl.length - i) ('.' :: ['.']) ++ pl.drop i
  if rel = [] then "." else { data := joinSlash rel }

/-- First character of the string is `/` (`b.startswith('/')`). -/
def headIsSlash (s : String) : Bool :=
  match s.data with
  | c :: _ => c = '/'
  | [] => false

/-- Last character of the string is `/` (`a.endswith('/')`). -/
def lastIsSlash (s : String) : Bool :=
  match s.data.getLast? with
  | some c => c = '/'
  | none => false

/-- POSIX `os.path.join(a, b)` for two arguments. -/
def posixJoin (a b : String) : String :=
  if headIsSlash b then b
  else if a = "" ∨ lastIsSlash a then a ++ b
  else a ++ "/" ++ b

/-- `s.replace("\\", "/")` for the single-character pattern `\`. -/
def replaceBackslash (s : String) : String :=
  { data := s.data.map (fun c => if c = '\x5c' then '/' else c) }

/-- The candidate remote path built in the non-root branch of
`SCPFolder.to_remote_path`: `os.path.join(self.remote_path,
os.path.relpath(path, self.root)).replace("\\", "/")`. -/
def appended_remote_path (m : Mapping) (path : String) : String :=
  replaceBackslash (posixJoin m.remote_path (relpath path m.root))

/-- `SCPFolder.to_remote_path`: the mapped remote path, or `none` for
the `ValueError("Invalid path!")` raised when the joined path contains
`..` as a substring. -/
def to_remote_path (m : Mapping) (path : String) : Option String :=
  if path = m.root then some m.remote_path
  else if pyIn ".." (appended_remote_path m path) then none
  else some (appended_remote_path m path)

/-- Error kinds observable in the command layer. `scpCommand` is
`SCPCommandError`, `notConnected` is the not-connected error,
`abort` is `ScpAbortError`, `invalidPath` is the `ValueError` from
`to_remote_path`, `oserror` stands for local filesystem/tar errors. -/
inductive ExcKind where
  | scpCommand
  | notConnected
  | abort
  | invalidPath
  | oserror
  deriving DecidableEq

/-- `SCPFolder.cancel`: Modelled from the spec for the missing
`core/scpclient.py` part: `SCPClient.cancel` sets the transport
cancellation flag; the `SCPFolder` override then unconditionally raises
`ScpAbortError("Aborted by user!")`, returned here as the second
component. -/
def folder_cancel (s : Session) : Session × Option ExcKind :=
  ({ s with cancelled := true }, some ExcKind.abort)

/-! ## commands.py: grouping, strategy selection, pipelines -/

/-- One entry handed to the tar packing filter (`tarfile.TarInfo`):
its archive path and ownership metadata. -/
structure TarInfo where
  path : String
  uid : Nat
  gid : Nat
  uname : String
  gname : String
  deriving DecidableEq

/-- The `tarfilter` closure in `ScpPutCommand.puttree`: drop every entry
whose path contains `.scp` or `.git` as a substring, and force neutral
ownership (`uid = gid = 0`, names `root`) on everything kept. -/
def tarfilter (t : TarInfo) : Option TarInfo :=
  if pyIn ".scp" t.path then none
  else if pyIn ".git" t.path then none
  else some { t with uid := 0, gid := 0, uname := "root", gname := "root" }

/-- The grouping-stage drop test in both executors:
`any(f in path for f in ('.scp', '.git'))`. -/
def dropPath (p : String) : Bool :=
  pyIn ".scp" p || pyIn ".git" p

/-- `groups.setdefault(conn, []).append(path)` on an insertion-ordered
association list keyed by session identity. -/
def addToGroups : List (Nat × List String) → Nat → String → List (Nat × List String)
  | [], k, p => [(k, [p])]
  | (k', ps) :: rest, k, p =>
    if k' = k then (k', ps ++ [p]) :: rest else (k', ps) :: addToGroups rest k p

/-- The grouping loop shared by `ScpGetCommand.executor` and
`ScpPutCommand.executor`: skip paths containing `.scp`/`.git`, skip
paths with no active session (the not-connected error is caught and
passed over), group the rest by owning session. -/
def groupPaths (connOf : String → Option Nat) :
    List String → List (Nat × List String) → List (Nat × List String)
  | [], gs => gs
  | p :: rest, gs =>
    if dropPath p then groupPaths connOf rest gs
    else
      match connOf p with
      | none => groupPaths connOf rest gs
      | some k => groupPaths connOf rest (addToGroups gs k p)

/-- Per-group strategy in both executors. -/
inductive Strategy where
  | singleFile
  | bulkTree
  deriving DecidableEq

/-- `len(paths) == 1 and os.path.isfile(paths[0])` chooses the direct
single-file transfer; everything else goes through the tar pipeline. -/
def selectStrategy (isfile : String → Bool) (paths : List String) : Strategy :=
  match paths with
  | [p] => if isfile p then Strategy.singleFile else Strategy.bulkTree
  | _ => Strategy.bulkTree

/-- Whether the chosen branch creates a local temporary archive:
`gettree`/`puttree` always call `tempfile.mkstemp`; the single-file
branch never does. -/
def usesTempArchive (isfile : String → Bool) (paths : List String) : Bool :=
  match selectStrategy isfile paths with
  | Strategy.singleFile => false
  | Strategy.bulkTree => true

/-- Python `str.format` restricted to positional fields `0` and `1`,
recursing over the template's characters. -/
def pyFormatL : List Char → List Char → List Char → List Char
  | [], _, _ => []
  | '\x7b' :: '0' :: '\x7d' :: rest, a, b => a ++ pyFormatL rest a b
  | '\x7b' :: '1' :: '\x7d' :: rest, a, b => b ++ pyFormatL rest a b
  | c :: rest, a, b => c :: pyFormatL rest a b

/-- `tmpl.format(a, b)`. -/
def pyFormat (tmpl a b : String) : String :=
  { data := pyFormatL tmpl.data a.data b.data }

/-- Which collaborator calls fail during one run of
`ScpPutCommand.puttree`. `packFails` models a local tar/filesystem
error while packing (which in the source happens before the
`try`/`finally` is entered); the other two are exceptions raised by the
upload (`putfile`) and the remote shell command (`plink`). -/
structure PutEnv where
  packFails : Bool
  uploadErr : Option ExcKind
  plinkErr : Option ExcKind
  deriving DecidableEq

/-- Observable outcome of a `puttree`/`gettree` run: whether the local
temporary archive still exists, which remote shell commands were
issued, the exception escaping to the caller (if any), and whether the
success status message was shown. -/
structure RunOutcome where
  localTmpExists : Bool
  plinkCmds : List String
  raised : Option ExcKind
  statusOk : Bool
  deriving DecidableEq

/-- Control-flow model of `ScpPutCommand.puttree` after the remote root
was resolved, parametrized by the remote directory and remote archive
names. `tempfile.mkstemp` creates the local archive; packing runs
outside the `try`, so a packing error propagates without the `finally`
ever deleting the archive. Inside the `try`, only `SCPCommandError` is
caught, and the `finally` unconditionally removes the local archive
(`os.remove` is assumed to succeed on the existing file). -/
def puttree_run (dir arc : String) (env : PutEnv) : RunOutcome :=
  if env.packFails then
    { localTmpExists := true, plinkCmds := [], raised := some ExcKind.oserror,
      statusOk := false }
  else
    match env.uploadErr with
    | some e =>
      { localTmpExists := false, plinkCmds := [],
        raised := if e = ExcKind.scpCommand then none else some e,
        statusOk := false }
    | none =>
      let cmd := pyFormat "mkdir -p {0}; tar -C {0} -xf {1}; rm {1}" dir arc
      match env.plinkErr with
      | some e =>
        { localTmpExists := false, plinkCmds := [cmd],
          raised := if e = ExcKind.scpCommand then none else some e,
          statusOk := false }
      | none =>
        { localTmpExists := false, plinkCmds := [cmd], raised := none,
          statusOk := true }

/-- Which collaborator calls fail during one run of
`ScpGetCommand.gettree`: the remote pack command, the archive download,
local extraction, and the best-effort remote archive removal in the
`finally` block. -/
structure GetEnv where
  plinkErr : Option ExcKind
  downloadErr : Option ExcKind
  extractFails : Bool
  remoteRemoveFails : Bool
  deriving DecidableEq

/-- Control-flow model of `ScpGetCommand.gettree` after the remote root
was resolved. Everything from the remote pack command to local
extraction sits inside one `try` whose handler catches only
`SCPCommandError`; the `finally` best-effort-removes the remote archive
and then the local archive (both wrapped in `except: pass`, and
`os.remove` on the existing local file is assumed to succeed). -/
def gettree_run (dir arc : String) (env : GetEnv) : RunOutcome :=
  let cmd := pyFormat "tar -C {0} -cf {1} ." dir arc
  let pending : Option ExcKind :=
    match env.plinkErr with
    | some e => some e
    | none =>
      match env.downloadErr with
      | some e => some e
      | none => if env.extractFails then some ExcKind.oserror else none
  { localTmpExists := false
    plinkCmds := [cmd]
    raised :=
      match pending with
      | some e => if e = ExcKind.scpCommand then none else some e
      | none => none
    statusOk := pending = none }

/-- Script for one group reaching the put executor's per-group branch:
either the single-file fast path (whose transfer may raise
`singleErr`), or the tree pipeline, whose `to_remote_path(local_dir)`
call may raise (`resolveErr`, an uncaught `ValueError` issued before
the pipeline's `try`), and whose stages behave as `env` says. -/
structure PutGroup where
  isSingleFile : Bool
  singleErr : Option ExcKind
  resolveErr : Bool
  env : PutEnv
  deriving DecidableEq

/-- Exception escaping the processing of one put group, if any. -/
def processPutGroup (dir arc : String) (g : PutGroup) : Option ExcKind :=
  if g.isSingleFile then g.singleErr
  else if g.resolveErr then some ExcKind.invalidPath
  else (puttree_run dir arc g.env).raised

/-- The `for conn, paths in groups.items()` loop of
`ScpPutCommand.executor` has no exception handler, so the first group
whose processing raises terminates the loop. The trace records, in
order, the escaping exception (or `none`) of every group that was
started. -/
def putExecutorTrace (dir arc : String) : List PutGroup → List (Option ExcKind)
  | [] => []
  | g :: rest =>
    match processPutGroup dir arc g with
    | some e => [some e]
    | none => none :: putExecutorTrace dir arc rest

/-- Script for one group reaching the get executor's per-group branch. -/
structure GetGroup where
  isSingleFile : Bool
  singleErr : Option ExcKind
  resolveErr : Bool
  env : GetEnv
  deriving DecidableEq

/-- Exception escaping the processing of one get group, if any. -/
def processGetGroup (dir arc : String) (g : GetGroup) : Option ExcKind :=
  if g.isSingleFile then g.singleErr
  else if g.resolveErr then some ExcKind.invalidPath
  else (gettree_run dir arc g.env).raised

/-- Same loop shape for `ScpGetCommand.executor`. -/
def getExecutorTrace (dir arc : String) : List GetGroup → List (Option ExcKind)
  | [] => []
  | g :: rest =>
    match processGetGroup dir arc g with
    | some e => [some e]
    | none => none :: getExecutorTrace dir arc rest

/-- A put group whose only possible failures are `SCPCommandError`s
raised inside the pipeline's `try` block. -/
def benignPut (g : PutGroup) : Prop :=
  g.isSingleFile = false ∧ g.resolveErr = false ∧ g.env.packFails = false ∧
    (g.env.uploadErr = none ∨ g.env.uploadErr = some ExcKind.scpCommand) ∧
    (g.env.plinkErr = none ∨ g.env.plinkErr = some ExcKind.scpCommand)

instance (g : PutGroup) : Decidable (benignPut g) := by
  unfold benignPut
  infer_instance

/-- A get group whose only possible failures are `SCPCommandError`s
raised inside the pipeline's `try` block. -/
def benignGet (g : GetGroup) : Prop :=
  g.isSingleFile = false ∧ g.resolveErr = false ∧ g.env.extractFails = false ∧
    (g.env.plinkErr = none ∨ g.env.plinkErr = some ExcKind.scpCommand) ∧
    (g.env.downloadErr = none ∨ g.env.downloadErr = some ExcKind.scpCommand)

instance (g : GetGroup) : Decidable (benignGet g) := by
  unfold benignGet
  infer_instance

/-- Outcome of `ScpCancelCommand.run`'s path loop: which paths were
examined, the exception that escaped (if any), and whether the final
`SCP: Aborted!` status message was reached. -/
structure CancelRun where
  processed : List String
  raised : Option ExcKind
  statusShown : Bool
  deriving DecidableEq

/-- The loop in `ScpCancelCommand.run`: for each path, look up the
connection; the not-connected error is caught and the loop continues;
on a connected path, `cancel()` raises `ScpAbortError`, which the loop
does not catch, so it terminates there and the status message is never
shown. (The missing `core/scpclient.py` is spec-modelled here: per the
spec's error-handling design, the not-connected error raised by
`connection` is the one the `except` clause catches.) -/
def cancelRunLoop (conns : List Session) : List String → CancelRun
  | [] => { processed := [], raised := none, statusShown := true }
  | p :: rest =>
    match connection conns p with
    | none =>
      { processed := p :: (cancelRunLoop conns rest).processed,
        raised := (cancelRunLoop conns rest).raised,
        statusShown := (cancelRunLoop conns rest).statusShown }
    | some _ =>
      { processed := [p], raised := some ExcKind.abort, statusShown := false }

/-! ## Helper lemmas: substrings and segments -/

theorem listContains_nil (l : List Char) : listContains [] l = true := by
  cases l <;> simp [listContains, List.isPrefixOf]

theorem isPrefixOf_append_self (l t : List Char) : l.isPrefixOf (l ++ t) = true := by
  induction l with
  | nil => cases t <;> rfl
  | cons c cs ih => simp [List.isPrefixOf, ih]

theorem listContains_decomp (n pre post : List Char) :
    listContains n (pre ++ n ++ post) = true := by
  induction pre with
  | nil =>
    cases n with
    | nil => simpa using listContains_nil post
    | cons c cs =>
      show listContains (c :: cs) ((c :: cs) ++ post) = true
      unfold listContains
      simp [isPrefixOf_append_self]
  | cons a pre ih =>
    show listContains n (a :: (pre ++ n ++ post)) = true
    unfold listContains
    simp only [Bool.or_eq_true]
    exact Or.inr ih

theorem splitChar_decomp (sep : Char) (l : List Char) :
    ∃ q qs, splitChar sep l = q :: qs ∧ (∃ post, l = q ++ post) ∧
      ∀ p ∈ qs, ∃ pre post, l = pre ++ p ++ post := by
  induction l with
  | nil => exact ⟨[], [], rfl, ⟨[], rfl⟩, by simp⟩
  | cons c t ih =>
    obtain ⟨q, qs, hs, ⟨post, hq⟩, ht⟩ := ih
    by_cases hc : c = sep
    · refine ⟨[], q :: qs, ?_, ⟨c :: t, rfl⟩, ?_⟩
      · simp [splitChar, hc, hs]
      · intro p hp
        rcases List.mem_cons.mp hp with rfl | hp
        · exact ⟨[c], post, by simp [hq]⟩
        · obtain ⟨pre, post', hd⟩ := ht p hp
          exact ⟨c :: pre, post', by simp [hd]⟩
    · refine ⟨c :: q, qs, ?_, ⟨post, by simp [hq]⟩, ?_⟩
      · simp [splitChar, hc, hs]
      · intro p hp
        obtain ⟨pre, post', hd⟩ := ht p hp
        exact ⟨c :: pre, post', by simp [hd]⟩

theorem mem_splitChar (sep : Char) (l p : List Char) (h : p ∈ splitChar sep l) :
    ∃ pre post, l = pre ++ p ++ post := by
  obtain ⟨q, qs, hs, ⟨post, hq⟩, ht⟩ := splitChar_decomp sep l
  rw [hs] at h
  rcases List.mem_cons.mp h with rfl | h
  · exact ⟨[], post, by simp [hq]⟩
  · exact ht p h

theorem hasSegment_pyIn (seg s : String) (h : hasSegment seg s) : pyIn seg s = true := by
  obtain ⟨pre, post, hd⟩ := mem_splitChar '/' s.data seg.data h
  unfold pyIn
  rw [hd]
  exact listContains_decomp seg.data pre post

/-! ## C1: to_remote_path never yields a `..` segment -/

/-- C1 (amended): provided the mapping's own `remote_path` contains no
`..` substring, `to_remote_path` never returns a remote path containing
a `..` segment, and for `p ≠ m.root`, whenever the appended candidate
path would contain a `..` segment the call fails (raises the
invalid-path error, modelled as `none`) instead of returning a path. -/
theorem to_remote_path_no_dotdot (m : Mapping) (p : String)
    (hm : pyIn ".." m.remote_path = false) :
    (∀ r, to_remote_path m p = some r → ¬ hasSegment ".." r) ∧
    (p ≠ m.root → hasSegment ".." (appended_remote_path m p) →
      to_remote_path m p = none) := by
  constructor
  · intro r hr hseg
    unfold to_remote_path at hr
    split at hr
    · have hr' : m.remote_path = r := Option.some.inj hr
      have hin := hasSegment_pyIn ".." r hseg
      rw [← hr'] at hin
      rw [hm] at hin
      exact Bool.false_ne_true hin
    · split at hr
      · exact Option.noConfusion hr
      · rename_i hin
        have hr' := Option.some.inj hr
        rw [← hr'] at hseg
        exact hin (hasSegment_pyIn ".." _ hseg)
  · intro hroot hseg
    have hin := hasSegment_pyIn ".." _ hseg
    simp [to_remote_path, hroot, hin]

/-- C1 counterexample: the claim as stated is false at the mapped root
itself. With `remote_path = "/a/../b"`, the call at `p = root` returns
the remote path verbatim, and it contains a `..` segment. -/
theorem to_remote_path_root_dotdot_counterexample :
    to_remote_path { root := "/r", remote_path := "/a/../b" } "/r" =
      some "/a/../b" ∧ hasSegment ".." "/a/../b" := by
  exact ⟨rfl, by decide⟩

/-- C1 witness: a clean mapping and a nested file; the returned remote
path has no `..` segment. -/
theorem to_remote_path_no_dotdot_witness :
    pyIn ".." "/srv/app" = false ∧ ¬ hasSegment ".." "/srv/app/sub/f.txt" :=
  ⟨by decide,
    (to_remote_path_no_dotdot { root := "/r", remote_path := "/srv/app" }
      "/r/sub/f.txt" (by decide)).1 "/srv/app/sub/f.txt" (by decide)⟩

/-! ## C4: single-file fast path -/

/-- C4: a group transfers without a temporary archive exactly when it
holds one single path that is a regular file; every other group shape
goes through the bulk tar pipeline (which always creates one). -/
theorem single_file_fast_path (isfile : String → Bool) (paths : List String) :
    (usesTempArchive isfile paths = false ↔ ∃ p, paths = [p] ∧ isfile p = true) ∧
    (selectStrategy isfile paths = Strategy.singleFile ↔
      ∃ p, paths = [p] ∧ isfile p = true) := by
  cases paths with
  | nil => simp [usesTempArchive, selectStrategy]
  | cons a rest =>
    cases rest with
    | nil => by_cases h : isfile a <;> simp [usesTempArchive, selectStrategy, h]
    | cons b r => simp [usesTempArchive, selectStrategy]

/-! ## C5: the exact remote command strings -/

theorem pyFormat_tar_pack (dir arc : String) :
    pyFormat "tar -C {0} -cf {1} ." dir arc =
      "tar -C " ++ dir ++ " -cf " ++ arc ++ " ." := by
  apply String.ext
  simp [pyFormat, pyFormatL]

theorem pyFormat_tar_unpack (dir arc : String) :
    pyFormat "mkdir -p {0}; tar -C {0} -xf {1}; rm {1}" dir arc =
      "mkdir -p " ++ dir ++ "; tar -C " ++ dir ++ " -xf " ++ arc ++ "; rm " ++ arc := by
  apply String.ext
  simp [pyFormat, pyFormatL]

/-- C5: every `gettree` run issues exactly the remote pack command
`tar -C <dir> -cf <archive> .`, and a `puttree` run that reaches the
remote stage issues, as its one remote invocation,
`mkdir -p <dir>; tar -C <dir> -xf <archive>; rm <archive>`. -/
theorem remote_command_forms (dir arc : String) :
    (∀ env : GetEnv, (gettree_run dir arc env).plinkCmds =
      ["tar -C " ++ dir ++ " -cf " ++ arc ++ " ."]) ∧
    ∀ env : PutEnv, env.packFails = false → env.uploadErr = none →
      (puttree_run dir arc env).plinkCmds =
        ["mkdir -p " ++ dir ++ "; tar -C " ++ dir ++ " -xf " ++ arc ++ "; rm " ++ arc] := by
  constructor
  · intro env
    simp [gettree_run, pyFormat_tar_pack]
  · intro env h1 h2
    rcases env with ⟨pf, ue, pe⟩
    simp only at h1 h2
    subst h1; subst h2
    cases pe <;> simp [puttree_run, pyFormat_tar_unpack]

/-- C5 witness: a put run with no failures issues the single combined
remote command for concrete names. -/
theorem remote_command_forms_witness :
    (gettree_run "/home/g/proj" "/tmp/scp_x" ⟨none, none, false, false⟩).plinkCmds =
      ["tar -C /home/g/proj -cf /tmp/scp_x ."] ∧
    (puttree_run "/home/g/proj" "/tmp/scp_x" ⟨false, none, none⟩).plinkCmds =
      ["mkdir -p /home/g/proj; tar -C /home/g/proj -xf /tmp/scp_x; rm /tmp/scp_x"] :=
  ⟨(remote_command_forms "/home/g/proj" "/tmp/scp_x").1 ⟨none, none, false, false⟩,
   (remote_command_forms "/home/g/proj" "/tmp/scp_x").2 ⟨false, none, none⟩ rfl rfl⟩

/-! ## C2: local temporary archive cleanup -/

/-- C2 (code bug): the local temporary archive survives a `puttree` run
exactly when packing fails, because packing happens before the
`try`/`finally` that deletes it; a `gettree` run always removes it. The
third conjunct evaluates the failing input: a put whose packing stage
raises leaves the archive on disk while the exception propagates. -/
theorem puttree_pack_failure_leaks_local_tmp (dir arc : String) :
    (∀ env : GetEnv, (gettree_run dir arc env).localTmpExists = false) ∧
    (∀ env : PutEnv, (puttree_run dir arc env).localTmpExists = env.packFails) ∧
    (puttree_run dir arc ⟨true, none, none⟩).localTmpExists = true ∧
    (puttree_run dir arc ⟨true, none, none⟩).raised = some ExcKind.oserror := by
  refine ⟨fun env => rfl, fun env => ?_, rfl, rfl⟩
  rcases env with ⟨pf, ue, pe⟩
  cases pf <;> cases ue <;> cases pe <;> simp [puttree_run]

/-! ## C3: per-group fault isolation -/

/-- C3 counterexample: two put groups, the first a single-file transfer
that fails with `SCPCommandError`; the executor's loop has no handler,
so the trace ends at the first group and the second group is never
processed — a failure in one group does prevent the remaining groups. -/
theorem group_failure_stops_executor_counterexample :
    putExecutorTrace "/d" "/t"
      [⟨true, some ExcKind.scpCommand, false, ⟨false, none, none⟩⟩,
       ⟨true, none, false, ⟨false, none, none⟩⟩] =
      [some ExcKind.scpCommand] := rfl

theorem processPutGroup_benign (dir arc : String) (g : PutGroup)
    (h : benignPut g) : processPutGroup dir arc g = none := by
  rcases g with ⟨sf, se, re, ⟨pf, ue, pe⟩⟩
  simp only [benignPut] at h
  obtain ⟨h1, h2, h3, h4, h5⟩ := h
  subst h1; subst h2; subst h3
  rcases h4 with h4 | h4 <;> rcases h5 with h5 | h5 <;> subst h4 <;> subst h5 <;>
    simp [processPutGroup, puttree_run]

theorem processGetGroup_benign (dir arc : String) (g : GetGroup)
    (h : benignGet g) : processGetGroup dir arc g = none := by
  rcases g with ⟨sf, se, re, ⟨pe, de, ef, rr⟩⟩
  simp only [benignGet] at h
  obtain ⟨h1, h2, h3, h4, h5⟩ := h
  subst h1; subst h2; subst h3
  rcases h4 with h4 | h4 <;> rcases h5 with h5 | h5 <;> subst h4 <;> subst h5 <;>
    cases rr <;> simp [processGetGroup, gettree_run]

/-- C3 (amended): fault isolation holds only for groups whose failures
are `SCPCommandError`s raised inside the tar pipeline's `try` block
(such groups complete with a failure status and the loop continues);
under that restriction every group in a bulk put or get is processed.
Any other failure — a failed single-file transfer, an invalid-path
error while resolving the group's remote root, a local packing or
extraction error, an abort — escapes the loop and prevents all
remaining groups. -/
theorem benign_groups_all_processed (dir arc : String)
    (pgs : List PutGroup) (ggs : List GetGroup)
    (hp : ∀ g ∈ pgs, benignPut g) (hg : ∀ g ∈ ggs, benignGet g) :
    (putExecutorTrace dir arc pgs).length = pgs.length ∧
    (getExecutorTrace dir arc ggs).length = ggs.length := by
  constructor
  · induction pgs with
    | nil => rfl
    | cons g rest ih =>
      have hgb := processPutGroup_benign dir arc g (hp g (List.mem_cons_self g rest))
      simp only [putExecutorTrace, hgb, List.length_cons]
      exact congrArg Nat.succ (ih (fun x hx => hp x (List.mem_cons_of_mem g hx)))
  · induction ggs with
    | nil => rfl
    | cons g rest ih =>
      have hgb := processGetGroup_benign dir arc g (hg g (List.mem_cons_self g rest))
      simp only [getExecutorTrace, hgb, List.length_cons]
      exact congrArg Nat.succ (ih (fun x hx => hg x (List.mem_cons_of_mem g hx)))

/-- C3 witness: one benign put group (its upload fails with
`SCPCommandError` and is handled) and one benign get group are both
processed to completion. -/
theorem benign_groups_all_processed_witness :
    (putExecutorTrace "/d" "/t"
      [⟨false, none, false, ⟨false, some ExcKind.scpCommand, none⟩⟩]).length = 1 ∧
    (getExecutorTrace "/d" "/t"
      [⟨false, none, false, ⟨some ExcKind.scpCommand, none, false, false⟩⟩]).length = 1 :=
  benign_groups_all_processed "/d" "/t"
    [⟨false, none, false, ⟨false, some ExcKind.scpCommand, none⟩⟩]
    [⟨false, none, false, ⟨some ExcKind.scpCommand, none, false, false⟩⟩]
    (by decide) (by decide)

/-! ## C6: connect is idempotent -/

theorem connLoop_none_append_single (p : String) (l : List Session) (c : Session)
    (h : connLoop p l = none) (hc : startswith p c.root = true) :
    connLoop p (l ++ [c]) = some c := by
  induction l with
  | nil => simp [connLoop, hc]
  | cons a as ih =>
    by_cases ha : startswith p a.root
    · simp [connLoop, ha] at h
    · simp only [List.cons_append, connLoop, ha, if_false] at h ⊢
      simp only [Bool.false_eq_true, if_false]
      exact ih h

/-- C6: if a call to `connect` returned a session (so the path now has
an active one), calling `connect` again on the same path constructs
nothing — the registry state is unchanged — and returns the identical
session object the first call returned. The hypothesis on `fsRoot`
records the `root_dir` contract: the discovered root is an ancestor,
hence a string prefix, of the query path. -/
theorem connect_idempotent (fsRoot : String → Option String) (st : RegState)
    (p : String) (c : Session) (st' : RegState) (hp : p ≠ "")
    (hroot : ∀ r, fsRoot p = some r → startswith p r = true)
    (h1 : connect fsRoot st p = (some c, st')) :
    connect fsRoot st' p = (some c, st') := by
  unfold connect at h1 ⊢
  cases hconn : connection st.conns p with
  | some c0 =>
    rw [hconn] at h1
    injection h1 with h1a h1b
    subst h1b
    rw [hconn, h1a]
  | none =>
    rw [hconn] at h1
    cases hfs : fsRoot p with
    | none =>
      rw [hfs] at h1
      injection h1 with h1a h1b
      exact absurd h1a (by simp)
    | some r =>
      rw [hfs] at h1
      injection h1 with h1a h1b
      subst h1b
      have hnone : connLoop p st.conns = none := by
        unfold connection at hconn
        rw [if_neg hp] at hconn
        exact hconn
      have hnew : connection
          (st.conns ++ [{ root := r, id := st.nextId, cancelled := false }]) p =
          some { root := r, id := st.nextId, cancelled := false } := by
        unfold connection
        rw [if_neg hp]
        exact connLoop_none_append_single p st.conns _ hnone (hroot r hfs)
      dsimp only
      rw [hnew, h1a]

/-- C6 witness: after a first `connect` registered the session for
`/proj`, a second `connect` on the same file returns that very session
and leaves the registry untouched. -/
theorem connect_idempotent_witness :
    connect (fun _ => some "/proj")
      { conns := [{ root := "/proj", id := 0, cancelled := false }], nextId := 1 }
      "/proj/a.txt" =
      (some { root := "/proj", id := 0, cancelled := false },
       { conns := [{ root := "/proj", id := 0, cancelled := false }], nextId := 1 }) :=
  connect_idempotent (fun _ => some "/proj") { conns := [], nextId := 0 } "/proj/a.txt"
    { root := "/proj", id := 0, cancelled := false }
    { conns := [{ root := "/proj", id := 0, cancelled := false }], nextId := 1 }
    (by decide)
    (fun r hr => by injection hr with h; rw [← h]; decide)
    (by decide)

/-! ## C7: the tar filter excludes and normalizes -/

/-- C7: while packing the upload archive, every entry whose path has a
`.scp` or `.git` path component is excluded, and every entry the filter
keeps has ownership forced to uid 0, gid 0 and user/group name `root`,
with its path unchanged. -/
theorem tarfilter_excludes_and_normalizes (t : TarInfo) :
    ((hasSegment ".scp" t.path ∨ hasSegment ".git" t.path) → tarfilter t = none) ∧
    ∀ t', tarfilter t = some t' →
      t'.uid = 0 ∧ t'.gid = 0 ∧ t'.uname = "root" ∧ t'.gname = "root" ∧
        t'.path = t.path := by
  constructor
  · rintro (h | h)
    · simp [tarfilter, hasSegment_pyIn _ _ h]
    · have hg := hasSegment_pyIn _ _ h
      unfold tarfilter
      split
      · rfl
      · simp [hg]
  · intro t' ht'
    unfold tarfilter at ht'
    split at ht'
    · exact Option.noConfusion ht'
    · split at ht'
      · exact Option.noConfusion ht'
      · have hs := Option.some.inj ht'
        rw [← hs]
        exact ⟨rfl, rfl, rfl, rfl, rfl⟩

/-- C7 witness: an entry under `.git` is dropped; a kept entry gets the
neutral ownership. -/
theorem tarfilter_excludes_and_normalizes_witness :
    tarfilter ⟨"src/.git/config", 57, 58, "u", "g"⟩ = none ∧
    tarfilter ⟨"src/main.py", 57, 58, "u", "g"⟩ =
      some ⟨"src/main.py", 0, 0, "root", "root"⟩ :=
  ⟨(tarfilter_excludes_and_normalizes ⟨"src/.git/config", 57, 58, "u", "g"⟩).1
      (Or.inr (by decide)),
   by decide⟩

/-! ## C8: session lookup is a raw string-prefix scan -/

theorem connLoop_eq_find (p : String) (conns : List Session) :
    connLoop p conns = conns.find? (fun c => startswith p c.root) := by
  induction conns with
  | nil => rfl
  | cons c rest ih =>
    by_cases h : startswith p c.root
    · simp [connLoop, List.find?, h]
    · simp [connLoop, List.find?, h, ih]

/-- C8: for a non-empty query path, `connection` returns the first
registered session whose root string is a character-level prefix of the
path, `is_connected` is exactly the success test of that same scan, and
consequently a session rooted at `/proj` also matches the unrelated
path `/project2`. -/
theorem connection_first_string_match (conns : List Session) (p : String)
    (hp : p ≠ "") :
    connection conns p = conns.find? (fun c => startswith p c.root) ∧
    is_connected conns p = (connection conns p).isSome ∧
    connection [{ root := "/proj", id := 0, cancelled := false }] "/project2" =
      some { root := "/proj", id := 0, cancelled := false } := by
  refine ⟨?_, ?_, by decide⟩
  · simp [connection, hp, connLoop_eq_find]
  · simp [connection, is_connected, hp]

/-- C8 witness: the `/proj` session is found for `/project2`. -/
theorem connection_first_string_match_witness :
    connection [{ root := "/proj", id := 0, cancelled := false }] "/project2" =
      some { root := "/proj", id := 0, cancelled := false } :=
  (connection_first_string_match
    [{ root := "/proj", id := 0, cancelled := false }] "/project2" (by decide)).2.2

/-! ## C9: the drop rule is a substring test -/

theorem addToGroups_not_mem (k : Nat) (q p : String) (hq : q ≠ p) :
    ∀ gs, (∀ g ∈ gs, p ∉ g.2) → ∀ g ∈ addToGroups gs k q, p ∉ g.2 := by
  intro gs
  induction gs with
  | nil =>
    intro _ g hg
    simp only [addToGroups, List.mem_singleton] at hg
    subst hg
    intro hp
    rw [List.mem_singleton] at hp
    exact hq hp.symm
  | cons a rest ih =>
    rcases a with ⟨k', ps⟩
    intro h g hg
    by_cases hk : k' = k
    · simp only [addToGroups, if_pos hk] at hg
      rcases List.mem_cons.mp hg with hg | hg
      · subst hg
        intro hp
        rcases List.mem_append.mp hp with hp | hp
        · exact h (k', ps) (List.mem_cons_self _ _) hp
        · rw [List.mem_singleton] at hp
          exact hq hp.symm
      · exact h g (List.mem_cons_of_mem _ hg)
    · simp only [addToGroups, if_neg hk] at hg
      rcases List.mem_cons.mp hg with hg | hg
      · subst hg
        exact h (k', ps) (List.mem_cons_self _ _)
      · exact ih (fun x hx => h x (List.mem_cons_of_mem _ hx)) g hg

theorem groupPaths_dropped_not_mem (connOf : String → Option Nat) (p : String)
    (hp : dropPath p = true) :
    ∀ paths gs, (∀ g ∈ gs, p ∉ g.2) → ∀ g ∈ groupPaths connOf paths gs, p ∉ g.2 := by
  intro paths
  induction paths with
  | nil =>
    intro gs h g hg
    exact h g hg
  | cons q rest ih =>
    intro gs h g hg
    by_cases hd : dropPath q
    · rw [groupPaths, if_pos hd] at hg
      exact ih gs h g hg
    · rw [groupPaths, if_neg hd] at hg
      have hqp : q ≠ p := fun he => hd (he ▸ hp)
      cases hc : connOf q with
      | none =>
        rw [hc] at hg
        exact ih gs h g hg
      | some k =>
        rw [hc] at hg
        exact ih (addToGroups gs k q) (addToGroups_not_mem k q p hqp gs h) g hg

/-- C9: any path containing `.scp` or `.git` anywhere as a substring is
silently excluded both from bulk grouping and from archive packing —
the rule is a substring test, not a path-component test, so filenames
like `.gitignore` or `notes.scpx` are also dropped (last two
conjuncts). -/
theorem substring_drop_rule (connOf : String → Option Nat) (paths : List String)
    (p : String) (h : pyIn ".scp" p = true ∨ pyIn ".git" p = true) :
    (∀ g ∈ groupPaths connOf paths [], p ∉ g.2) ∧
    (∀ t : TarInfo, t.path = p → tarfilter t = none) ∧
    dropPath "/proj/.gitignore" = true ∧ dropPath "/proj/notes.scpx" = true := by
  have hdp : dropPath p = true := by
    unfold dropPath
    rcases h with h | h <;> simp [h]
  refine ⟨?_, ?_, by decide, by decide⟩
  · exact groupPaths_dropped_not_mem connOf p hdp paths [] (by simp)
  · intro t ht
    unfold tarfilter
    rw [ht]
    rcases h with h | h
    · rw [if_pos h]
    · simp [h]

/-- C9 witness: `.gitignore` only contains `.git` as a substring (it is
not a `.git` component), yet it is dropped from grouping and packing. -/
theorem substring_drop_rule_witness :
    groupPaths (fun _ => some 0) ["/proj/.gitignore"] [] = [] ∧
    tarfilter ⟨"/proj/.gitignore", 1, 2, "u", "g"⟩ = none :=
  ⟨rfl,
   (substring_drop_rule (fun _ => some 0) ["/proj/.gitignore"] "/proj/.gitignore"
      (Or.inr (by decide))).2.1 ⟨"/proj/.gitignore", 1, 2, "u", "g"⟩ rfl⟩

/-! ## C10: cancel raises and stops the cancel command's loop -/

/-- C10: `SCPFolder.cancel` always sets the cancellation flag and then
raises the abort error to its own caller (there is no in-progress
check), and since `ScpCancelCommand.run` catches only the not-connected
error, the loop over paths stops at the first connected one: the paths
before it are examined and skipped, the paths after it are never
visited, and the closing status message is never reached. -/
theorem cancel_aborts_at_first_connected (conns : List Session)
    (pre : List String) (p : String) (post : List String)
    (hpre : ∀ q ∈ pre, connection conns q = none)
    (hp : (connection conns p).isSome) :
    (∀ s : Session, folder_cancel s = ({ s with cancelled := true }, some ExcKind.abort)) ∧
    cancelRunLoop conns (pre ++ p :: post) =
      { processed := pre ++ [p], raised := some ExcKind.abort, statusShown := false } := by
  refine ⟨fun s => rfl, ?_⟩
  induction pre with
  | nil =>
    rw [List.nil_append]
    obtain ⟨c, hc⟩ := Option.isSome_iff_exists.mp hp
    simp only [cancelRunLoop, hc]
    rfl
  | cons q qs ih =>
    have hq : connection conns q = none := hpre q (List.mem_cons_self q qs)
    have ih' := ih (fun x hx => hpre x (List.mem_cons_of_mem q hx))
    simp only [List.cons_append, cancelRunLoop, hq, List.append_eq, ih']

/-- C10 witness: one disconnected path is skipped, the first connected
path aborts the loop, the trailing path is never examined. -/
theorem cancel_aborts_at_first_connected_witness :
    cancelRunLoop [{ root := "/proj", id := 7, cancelled := false }]
      ["/other/x", "/proj/a", "/proj/b"] =
      { processed := ["/other/x", "/proj/a"], raised := some ExcKind.abort,
        statusShown := false } :=
  (cancel_aborts_at_first_connected [{ root := "/proj", id := 7, cancelled := false }]
    ["/other/x"] "/proj/a" ["/proj/b"] (by decide) (by decide)).2
